import Mathlib

/-!
Verification of the s57-postgis ingestion core against its specification.

The development shallowly embeds the C++ sources:
  * `src/zfinder.hpp`   — scale → zoom mapping (`ZFinder`);
  * `src/json_utils.cpp` — JSON serialization helpers;
  * `src/s57.cpp`       — S-57 chart reading (layers, records, features);
  * `src/database.cpp`  — the PostGIS record store (modelled as a state machine);
  * `src/ingest.cpp`    — the per-file ingestion pipeline.

C++ `int` values are embedded as `ℤ` (with explicit range handling where the
32-bit bound matters, e.g. in the `std::stoi` model).  The `double` working
copy inside `ZFinder::findZoom` only ever holds `scale / 2^k` for a 32-bit
`scale`, values that IEEE-754 doubles represent exactly (halving is exact),
so the loop is embedded with exact integer arithmetic: the loop condition
`zScale > 1.0` after `k` halvings is `scale > 2^k`.
-/

/-! ## ZFinder (`src/zfinder.hpp`) -/

/-- `ZFinder::ONE_TO_ONE_ZOOM`: the one-to-one (highest detail) zoom level. -/
def ONE_TO_ONE_ZOOM : ℤ := 28

/-- The `while (zScale > 1.0) { zScale /= 2.0; zoom -= 1; }` loop of
`ZFinder::findZoom`, counting iterations.  After `k` halvings the working
value is exactly `scale / 2^k`, so the continuation test is `2^k < scale`. -/
def zloop (scale : ℤ) (k : ℕ) : ℕ :=
  if (2 : ℤ) ^ k < scale then zloop scale (k + 1) + 1 else 0
termination_by scale.toNat - 2 ^ k
decreasing_by
  rename_i h
  have h2 : 2 ^ k < scale.toNat := by
    have hcast : ((2 ^ k : ℕ) : ℤ) < scale := by push_cast; exact h
    omega
  have h3 : 2 ^ k < 2 ^ (k + 1) := Nat.pow_lt_pow_right (by norm_num) (Nat.lt_succ_self k)
  omega

/-- `ZFinder::findZoom`: start at zoom 28 and decrement once per halving. -/
def findZoom (scale : ℤ) : ℤ := ONE_TO_ONE_ZOOM - zloop scale 0

/-- `ZFinder::calculateZRange`: min/max zoom from SCAMIN/SCAMAX, with a final
swap establishing `minZ ≤ maxZ`. -/
def calculateZRange (scamin scamax : ℤ) : ℤ × ℤ :=
  let minZ : ℤ := if 0 < scamin then findZoom scamin else 0
  let maxZ : ℤ := if 0 < scamax then findZoom scamax else ONE_TO_ONE_ZOOM
  if maxZ < minZ then (maxZ, minZ) else (minZ, maxZ)

theorem zloop_eq_clog (scale : ℤ) : ∀ k : ℕ, zloop scale k = Nat.clog 2 scale.toNat - k := by
  intro k
  induction k using zloop.induct scale with
  | case1 k h ih =>
    have hk : k < Nat.clog 2 scale.toNat := by
      have h2 : 2 ^ k < scale.toNat := by
        have hcast : ((2 ^ k : ℕ) : ℤ) < scale := by push_cast; exact h
        omega
      by_contra hle
      have : scale.toNat ≤ 2 ^ k :=
        (Nat.le_pow_iff_clog_le (by norm_num)).mpr (by omega)
      omega
    rw [zloop, if_pos h, ih]
    omega
  | case2 k h =>
    have hk : Nat.clog 2 scale.toNat ≤ k := by
      have h2 : scale.toNat ≤ 2 ^ k := by
        rcases le_or_lt scale 0 with hs | hs
        · have : scale.toNat = 0 := by omega
          simp [this]
        · have : scale ≤ (2 : ℤ) ^ k := le_of_not_lt h
          exact Int.toNat_le.mpr (by exact_mod_cast this)
      exact (Nat.le_pow_iff_clog_le (by norm_num)).mp h2
    rw [zloop, if_neg h]
    omega

theorem findZoom_eq (scale : ℤ) : findZoom scale = 28 - Nat.clog 2 scale.toNat := by
  rw [findZoom, zloop_eq_clog scale 0, ONE_TO_ONE_ZOOM]
  simp

theorem findZoom_le (scale : ℤ) : findZoom scale ≤ 28 := by
  rw [findZoom_eq]; omega

theorem findZoom_two_pow (k : ℕ) : findZoom ((2 : ℤ) ^ k) = 28 - k := by
  rw [findZoom_eq]
  have h1 : ((2 : ℤ) ^ k).toNat = 2 ^ k := by
    rw [show ((2 : ℤ)) = ((2 : ℕ) : ℤ) by norm_num, ← Nat.cast_pow, Int.toNat_natCast]
  rw [h1, Nat.clog_pow 2 k (by norm_num)]

/-- C1: for every integer `scale > 1`, `findZoom scale = 28 - ⌈log₂ scale⌉`,
and `findZoom 1 = findZoom 0 = 28` (the loop halves a real working copy of
`scale` and decrements from 28 until the value is `≤ 1`). -/
theorem findZoom_spec :
    (∀ scale : ℤ, 1 < scale → findZoom scale = 28 - ⌈Real.logb 2 (scale : ℝ)⌉)
    ∧ findZoom 1 = 28 ∧ findZoom 0 = 28 := by
  refine ⟨fun scale hs => ?_, ?_, ?_⟩
  · have h0 : (0 : ℝ) ≤ (scale : ℝ) := by positivity
    have hceil : ⌈Real.logb 2 (scale : ℝ)⌉ = Int.clog 2 ((scale : ℝ)) := by
      have := Real.ceil_logb_natCast (b := 2) (r := (scale : ℝ)) h0
      simpa using this
    have htn : (scale.toNat : ℤ) = scale := Int.toNat_of_nonneg (by omega)
    have hnat : ((scale.toNat : ℕ) : ℝ) = (scale : ℝ) := by
      have h2 : (((scale.toNat : ℤ)) : ℝ) = ((scale : ℤ) : ℝ) := congrArg (fun z : ℤ => (z : ℝ)) htn
      rw [← h2, Int.cast_natCast]
    rw [hceil, ← hnat, Int.clog_natCast, findZoom_eq]
  · rw [findZoom_eq]
    norm_num
  · rw [findZoom_eq]
    norm_num

theorem findZoom_spec_witness :
    (1 < (8 : ℤ)) ∧ findZoom 8 = 28 - ⌈Real.logb 2 ((8 : ℤ) : ℝ)⌉ :=
  ⟨by norm_num, findZoom_spec.1 8 (by norm_num)⟩

/-- C2: `calculateZRange` returns `findZoom scamin` (or 0) and
`findZoom scamax` (or 28), swapped when needed so that `minZ ≤ maxZ`; when
both inputs are positive the unordered result pair is
`{findZoom scamin, findZoom scamax}`. -/
theorem calculateZRange_spec :
    ∀ scamin scamax : ℤ,
      (calculateZRange scamin scamax).1 ≤ (calculateZRange scamin scamax).2
      ∧ calculateZRange scamin scamax =
          (min (if 0 < scamin then findZoom scamin else 0)
               (if 0 < scamax then findZoom scamax else 28),
           max (if 0 < scamin then findZoom scamin else 0)
               (if 0 < scamax then findZoom scamax else 28))
      ∧ (0 < scamin → 0 < scamax →
          ({(calculateZRange scamin scamax).1, (calculateZRange scamin scamax).2} : Finset ℤ)
            = {findZoom scamin, findZoom scamax}) := by
  intro scamin scamax
  set m : ℤ := if 0 < scamin then findZoom scamin else 0 with hm
  set M : ℤ := if 0 < scamax then findZoom scamax else 28 with hM
  have hcalc : calculateZRange scamin scamax = if M < m then (M, m) else (m, M) := by
    rw [calculateZRange]
    rfl
  refine ⟨?_, ?_, ?_⟩
  · rw [hcalc]
    split <;> omega
  · rw [hcalc]
    rcases lt_or_ge M m with h | h
    · rw [if_pos h, min_eq_right (le_of_lt h), max_eq_left (le_of_lt h)]
    · rw [if_neg (not_lt.mpr h), min_eq_left h, max_eq_right h]
  · intro hmin hmax
    rw [hcalc, hm, hM, if_pos hmin, if_pos hmax]
    split
    · exact Finset.pair_comm _ _
    · rfl

theorem calculateZRange_spec_witness :
    ((calculateZRange 2 8).1 ≤ (calculateZRange 2 8).2)
    ∧ (0 < (2 : ℤ)) ∧ (0 < (8 : ℤ))
    ∧ ({(calculateZRange 2 8).1, (calculateZRange 2 8).2} : Finset ℤ)
        = {findZoom 2, findZoom 8} :=
  ⟨(calculateZRange_spec 2 8).1, by norm_num, by norm_num,
   (calculateZRange_spec 2 8).2.2 (by norm_num) (by norm_num)⟩

/-! ## JSON utilities (`src/json_utils.cpp`) -/

/-- Lower-case hex digit, as produced by `std::hex` in `escapeString`. -/
def hexDigit (n : ℕ) : Char := if n < 10 then Char.ofNat (48 + n) else Char.ofNat (87 + n)

/-- One character of `json::escapeString`'s switch. -/
def escapeChar (c : Char) : List Char :=
  if c = '"' then ['\\', '"']
  else if c = '\\' then ['\\', '\\']
  else if c = Char.ofNat 8 then ['\\', 'b']
  else if c = Char.ofNat 12 then ['\\', 'f']
  else if c = '\n' then ['\\', 'n']
  else if c = '\r' then ['\\', 'r']
  else if c = '\t' then ['\\', 't']
  else if c.toNat < 32 then ['\\', 'u', '0', '0', hexDigit (c.toNat / 16), hexDigit (c.toNat % 16)]
  else [c]

/-- `json::escapeString`: escape a string for inclusion in JSON text. -/
def escapeString (s : String) : String :=
  String.mk (s.data.foldr (fun c acc => escapeChar c ++ acc) [])

/-- `json::toJsonObject`: serialize a key→value map as a JSON object (the
C++ first-flag comma loop is an intercalation). -/
def toJsonObject (props : List (String × String)) : String :=
  "\x7b" ++ String.intercalate ","
      (props.map (fun kv => "\"" ++ escapeString kv.1 ++ "\":\"" ++ escapeString kv.2 ++ "\""))
    ++ "\x7d"

/-! ## S-57 reader model (`src/s57.cpp`, `src/types.hpp`)

`std::map<std::string, std::string>` is embedded as an association list kept
strictly sorted by key (`std::map` iterates in ascending key order and
`operator[]` overwrites), and OGR records/layers as explicit data. -/

/-- Insert into the sorted association list modelling `std::map`:
`props[key] = value` (overwrites an existing key). -/
def mapInsert (k v : String) : List (String × String) → List (String × String)
  | [] => [(k, v)]
  | (k2, v2) :: rest =>
    if k < k2 then (k, v) :: (k2, v2) :: rest
    else if k = k2 then (k, v) :: rest
    else (k2, v2) :: mapInsert k v rest

/-- `props.find(key)` on the association-list map. -/
def mapFind (k : String) : List (String × String) → Option String
  | [] => none
  | (k2, v2) :: rest => if k = k2 then some v2 else mapFind k rest

/-- `std::isspace` in the default locale (used by `std::stoi`). -/
def isSpaceChar (c : Char) : Bool :=
  c = ' ' || c = '\t' || c = '\n' || c = '\r' || c = Char.ofNat 11 || c = Char.ofNat 12

/-- Decimal value accumulated from a digit run, as `std::stoi` does. -/
def stoiDigits (ds : List Char) : ℕ :=
  ds.foldl (fun a c => a * 10 + (c.toNat - 48)) 0

/-- Model of `std::stoi` on a 32-bit `int`: skip leading whitespace, read an
optional sign and a maximal digit run; `none` models a thrown
`invalid_argument` (no digits) or `out_of_range` (outside `int`) exception,
which the callers catch. -/
def stoi? (s : String) : Option ℤ :=
  let cs := s.data.dropWhile isSpaceChar
  let signAndRest : Bool × List Char :=
    match cs with
    | '-' :: rest => (true, rest)
    | '+' :: rest => (false, rest)
    | _ => (false, cs)
  let ds := signAndRest.2.takeWhile (fun c => c.isDigit)
  if ds = [] then none
  else
    let v : ℤ := (if signAndRest.1 then -1 else 1) * (stoiDigits ds : ℤ)
    if v < -2147483648 ∨ 2147483647 < v then none else some v

/-- One OGR field of a record: name, set/null flags, the `GetFieldAsString`
rendering and the `GetFieldAsStringList` rendering. -/
structure OGRField where
  name : String
  isSet : Bool
  isNull : Bool
  asString : String
  asStringList : List String
deriving DecidableEq

/-- An OGR geometry: a (possibly 3-D) point, or some other geometry kind
carried abstractly by its serialized form. -/
inductive OGRGeom where
  | point (x y : ℚ) (z : Option ℚ)
  | nonpoint (serialized : String)
deriving DecidableEq

/-- One OGR record (`OGRFeature`). -/
structure OGRFeatureRec where
  fields : List OGRField
  geom : Option OGRGeom
deriving DecidableEq

/-- An S-57 dataset: open flag plus layers (name and record list) in
enumeration order. -/
structure S57Dataset where
  isOpen : Bool
  layers : List (String × List OGRFeatureRec)
deriving DecidableEq

/-- `EXCLUDED_LAYERS` from `src/types.hpp`. -/
def EXCLUDED_LAYERS : List String := ["DSID", "IsolatedNode", "ConnectedNode", "Edge", "Face"]

/-- `S57::isExcludedLayer`: linear scan with `==` over `EXCLUDED_LAYERS`. -/
def isExcludedLayer (layerName : String) : Bool := EXCLUDED_LAYERS.contains layerName

/-- `S57::getLayerNames`. -/
def getLayerNames (ds : S57Dataset) : List String :=
  if ds.isOpen then ds.layers.map Prod.fst else []

/-- `S57::extractProperties`: keep fields that are set, non-null and whose
string rendering is non-empty. -/
def extractProperties (fields : List OGRField) : List (String × String) :=
  fields.foldl
    (fun props f =>
      if f.isSet = true ∧ f.isNull = false ∧ f.asString ≠ "" then mapInsert f.name f.asString props
      else props)
    []

/-- Modelled from the spec: geometry serialization to GeoJSON is delegated
to the external vector library (`OGRGeometry::exportToJson`) and geometries
are reprojected to EPSG:4326 by the same library; both are out of the
specified core (spec §1, §6).  A null geometry yields the empty JSON object
as in `S57::geometryToGeoJson`; other geometries keep an abstract
serialization. -/
def geometryToGeoJson : Option OGRGeom → String
  | none => "\x7b\x7d"
  | some (.point x y none) =>
      "\x7b\"type\":\"Point\",\"coordinates\":[" ++ toString x ++ "," ++ toString y ++ "]\x7d"
  | some (.point x y (some z)) =>
      "\x7b\"type\":\"Point\",\"coordinates\":[" ++ toString x ++ "," ++ toString y ++ ","
        ++ toString z ++ "]\x7d"
  | some (.nonpoint w) => w

/-- Round to the nearest integer, ties to even — the IEEE default rounding
applied when printing a double. -/
def roundHalfEven (q : ℚ) : ℤ :=
  let f : ℤ := ⌊q⌋
  let r : ℚ := q - f
  if r < 1 / 2 then f
  else if 1 / 2 < r then f + 1
  else if f % 2 = 0 then f else f + 1

/-- `std::ostringstream << std::fixed << std::setprecision(1) << meters`:
fixed-point notation with exactly one fractional digit. -/
def formatFixed1 (q : ℚ) : String :=
  let n : ℤ := roundHalfEven (q * 10)
  let a : ℕ := n.natAbs
  (if n < 0 then "-" else "") ++ toString (a / 10) ++ "." ++ toString (a % 10)

/-- One lookup-and-parse block of `S57::getScaleRange`: the attribute value
parsed with `std::stoi`, left at 0 when the key is absent or parsing
throws. -/
def scaleOf (key : String) (props : List (String × String)) : ℤ :=
  match mapFind key props with
  | some s => (stoi? s).getD 0
  | none => 0

/-- `S57::getScaleRange`: parse SCAMIN/SCAMAX from the property map
(defaulting to 0 when absent or unparsable) and apply
`ZFinder::calculateZRange`. -/
def getScaleRange (props : List (String × String)) : ℤ × ℤ :=
  calculateZRange (scaleOf "SCAMIN" props) (scaleOf "SCAMAX" props)

/-- The SOUNDG special case in `S57::getLayerFeatures`: for that layer name
only, a 3-D point geometry adds `METERS` (depth to one decimal place) to the
property map. -/
def soundgMeters (layerName : String) (rec : OGRFeatureRec)
    (props : List (String × String)) : List (String × String) :=
  if layerName = "SOUNDG" then
    match rec.geom with
    | some (.point _ _ (some z)) => mapInsert "METERS" (formatFixed1 z) props
    | _ => props
  else props

/-- LNAM_REFS extraction in `S57::getLayerFeatures`: locate the field by
name; when present and set, take its string-list value. -/
def lnamRefsOf (rec : OGRFeatureRec) : List String :=
  match rec.fields.find? (fun f => f.name == "LNAM_REFS") with
  | some f => if f.isSet then f.asStringList else []
  | none => []

/-- The `Feature` record of `src/types.hpp`. -/
structure Feature where
  layer : String
  geomGeoJson : String
  propsJson : String
  minZ : ℤ
  maxZ : ℤ
  lnamRefs : List String
deriving DecidableEq

/-- The per-record body of the `S57::getLayerFeatures` loop. -/
def buildFeature (layerName : String) (rec : OGRFeatureRec) : Feature :=
  let props := soundgMeters layerName rec (extractProperties rec.fields)
  { layer := layerName
    geomGeoJson :=
      match rec.geom with
      | some g => geometryToGeoJson (some g)
      | none => ""
    propsJson := toJsonObject props
    minZ := (getScaleRange props).1
    maxZ := (getScaleRange props).2
    lnamRefs := lnamRefsOf rec }

/-- `S57::getLayerFeatures`. -/
def getLayerFeatures (ds : S57Dataset) (layerName : String) : List Feature :=
  if ¬ds.isOpen then []
  else if isExcludedLayer layerName then []
  else
    match ds.layers.find? (fun l => l.1 == layerName) with
    | none => []
    | some l => l.2.map (buildFeature layerName)

/-- `S57::getAllFeatures`. -/
def getAllFeatures (ds : S57Dataset) : List Feature :=
  if ¬ds.isOpen then []
  else
    (getLayerNames ds).foldl
      (fun acc layerName =>
        if isExcludedLayer layerName then acc else acc ++ getLayerFeatures ds layerName)
      []

/-! ## Claims about layer/feature extraction -/

theorem getLayerFeatures_excluded (ds : S57Dataset) (layerName : String)
    (h : isExcludedLayer layerName = true) : getLayerFeatures ds layerName = [] := by
  rw [getLayerFeatures]
  simp [h]

theorem getAllFeatures_foldl (ds : S57Dataset) (names : List String) (init : List Feature) :
    names.foldl
        (fun acc layerName =>
          if isExcludedLayer layerName then acc else acc ++ getLayerFeatures ds layerName)
        init
      = init ++ ((names.filter (fun n => !isExcludedLayer n)).map (getLayerFeatures ds)).flatten := by
  induction names generalizing init with
  | nil => simp
  | cons n rest ih =>
    by_cases h : isExcludedLayer n
    · simp [h, ih]
    · simp only [List.foldl_cons, eq_self_iff_true, h, if_false, Bool.not_false,
        List.filter_cons_of_pos, List.map_cons, List.flatten, ih]
      simp [List.append_assoc]

/-- C6: layers on the exclusion list yield no features regardless of their
record count, and `getAllFeatures` concatenates `getLayerFeatures` over the
non-excluded layers in enumeration order. -/
theorem excluded_layers_spec :
    (∀ (ds : S57Dataset) (layerName : String), layerName ∈ EXCLUDED_LAYERS →
        getLayerFeatures ds layerName = [])
    ∧ ∀ ds : S57Dataset,
        getAllFeatures ds =
          (((getLayerNames ds).filter (fun n => !isExcludedLayer n)).map
            (getLayerFeatures ds)).flatten := by
  constructor
  · intro ds layerName h
    exact getLayerFeatures_excluded ds layerName (by simpa [isExcludedLayer] using h)
  · intro ds
    rw [getAllFeatures]
    split
    · rename_i hclosed
      have : getLayerNames ds = [] := by
        rw [getLayerNames, if_neg (by simpa using hclosed)]
      simp [this]
    · rw [getAllFeatures_foldl]
      simp

/-- A dataset whose only layer is the excluded topology layer `Edge`, with
two records in it. -/
def edgeDs : S57Dataset :=
  ⟨true, [("Edge", [⟨[], none⟩, ⟨[], none⟩])]⟩

theorem excluded_layers_spec_witness :
    ("Edge" ∈ EXCLUDED_LAYERS) ∧ getLayerFeatures edgeDs "Edge" = [] :=
  ⟨by decide, excluded_layers_spec.1 edgeDs "Edge" (by decide)⟩

/-- C7: exactly for the layer named `SOUNDG`, a record whose geometry is a
3-D point gets the synthesized `METERS` attribute (depth to one decimal
place) merged into its property map before JSON serialization; no other
layer name triggers the rule.  `buildFeature` is the per-record body of
`S57::getLayerFeatures` (third conjunct). -/
theorem soundg_meters_spec :
    (∀ (layerName : String) (rec : OGRFeatureRec) (x y z : ℚ),
        layerName = "SOUNDG" → rec.geom = some (OGRGeom.point x y (some z)) →
        (buildFeature layerName rec).propsJson
          = toJsonObject (mapInsert "METERS" (formatFixed1 z) (extractProperties rec.fields)))
    ∧ (∀ (layerName : String) (rec : OGRFeatureRec), layerName ≠ "SOUNDG" →
        (buildFeature layerName rec).propsJson = toJsonObject (extractProperties rec.fields))
    ∧ (∀ (ds : S57Dataset) (layerName : String) (feat : Feature),
        feat ∈ getLayerFeatures ds layerName →
          ∃ rec : OGRFeatureRec, feat = buildFeature layerName rec) := by
  refine ⟨?_, ?_, ?_⟩
  · intro layerName rec x y z hname hgeom
    subst hname
    rw [buildFeature]
    simp [soundgMeters, hgeom]
  · intro layerName rec hname
    rw [buildFeature]
    simp [soundgMeters, hname]
  · intro ds layerName feat hmem
    rw [getLayerFeatures] at hmem
    split at hmem
    · simp at hmem
    · split at hmem
      · simp at hmem
      · split at hmem
        · simp at hmem
        · rcases List.mem_map.mp hmem with ⟨rec, _, hrec⟩
          exact ⟨rec, hrec.symm⟩

/-- A `SOUNDG` record carrying a 3-D point with depth 5. -/
def soundgRec : OGRFeatureRec := ⟨[], some (OGRGeom.point 1 2 (some 5))⟩

theorem soundg_meters_spec_witness :
    ((buildFeature "SOUNDG" soundgRec).propsJson
        = toJsonObject (mapInsert "METERS" (formatFixed1 5) (extractProperties soundgRec.fields)))
    ∧ toJsonObject (mapInsert "METERS" (formatFixed1 5) (extractProperties soundgRec.fields))
        = "\x7b\"METERS\":\"5.0\"\x7d" :=
  ⟨soundg_meters_spec.1 "SOUNDG" soundgRec 1 2 5 rfl rfl, by
    have hf : formatFixed1 5 = "5.0" := by
      norm_num [formatFixed1, roundHalfEven]
      rfl
    rw [hf]
    decide⟩

/-- A record whose SCAMIN attribute is `2^30 = 1073741824`, a legal 32-bit
scale for which `findZoom` is negative. -/
def bigScaleRec : OGRFeatureRec := ⟨[⟨"SCAMIN", true, false, "1073741824", []⟩], none⟩

/-- A dataset with a single non-excluded layer `FOO` holding `bigScaleRec`. -/
def bigScaleDs : S57Dataset := ⟨true, [("FOO", [bigScaleRec])]⟩

theorem bigScale_list : getLayerFeatures bigScaleDs "FOO" = [buildFeature "FOO" bigScaleRec] := by
  rw [getLayerFeatures]
  rw [if_neg (by decide), if_neg (by decide)]
  rw [show List.find? (fun l => l.1 == "FOO") bigScaleDs.layers
      = some ("FOO", [bigScaleRec]) from by decide]
  rfl

theorem bigScale_mem : buildFeature "FOO" bigScaleRec ∈ getLayerFeatures bigScaleDs "FOO" := by
  rw [bigScale_list]
  exact List.mem_singleton.mpr rfl

theorem buildFeature_minZ (layerName : String) (rec : OGRFeatureRec) :
    (buildFeature layerName rec).minZ
      = (getScaleRange (soundgMeters layerName rec (extractProperties rec.fields))).1 := rfl

theorem buildFeature_maxZ (layerName : String) (rec : OGRFeatureRec) :
    (buildFeature layerName rec).maxZ
      = (getScaleRange (soundgMeters layerName rec (extractProperties rec.fields))).2 := rfl

theorem calculateZRange_big : (calculateZRange 1073741824 0).1 = -2 := by
  have hfz : findZoom 1073741824 = -2 := by
    have h30 : (1073741824 : ℤ) = 2 ^ 30 := by norm_num
    rw [h30, findZoom_two_pow]
    norm_num
  rw [calculateZRange]
  norm_num [hfz, ONE_TO_ONE_ZOOM]

/-- C3 is false on the code: `getLayerFeatures` produces a feature with
`minZ = -2 < 0` when SCAMIN is `2^30` (no clamping is applied, exactly as
spec §4.1 warns). -/
theorem feature_zoom_nonneg_cex :
    ¬ (∀ (ds : S57Dataset) (layerName : String), ∀ feat ∈ getLayerFeatures ds layerName,
        0 ≤ feat.minZ ∧ feat.minZ ≤ feat.maxZ ∧ feat.maxZ ≤ 28) := by
  intro h
  have hbounds := h bigScaleDs "FOO" _ bigScale_mem
  have hminZ : (buildFeature "FOO" bigScaleRec).minZ = -2 := by
    have hprops : soundgMeters "FOO" bigScaleRec (extractProperties bigScaleRec.fields)
        = [("SCAMIN", "1073741824")] := by decide
    have hA : scaleOf "SCAMIN" [("SCAMIN", "1073741824")] = 1073741824 := by decide
    have hB : scaleOf "SCAMAX" [("SCAMIN", "1073741824")] = 0 := by decide
    rw [buildFeature_minZ, hprops, getScaleRange, hA, hB, calculateZRange_big]
  rw [hminZ] at hbounds
  omega

theorem calculateZRange_bounds (scamin scamax : ℤ) :
    (calculateZRange scamin scamax).1 ≤ (calculateZRange scamin scamax).2
    ∧ (calculateZRange scamin scamax).2 ≤ 28 := by
  have h1 := findZoom_le scamin
  have h2 := findZoom_le scamax
  set m : ℤ := if 0 < scamin then findZoom scamin else 0 with hm
  set M : ℤ := if 0 < scamax then findZoom scamax else 28 with hM
  have hcalc : calculateZRange scamin scamax = if M < m then (M, m) else (m, M) := by
    rw [calculateZRange]
    rfl
  have hm28 : m ≤ 28 := by rw [hm]; split <;> omega
  have hM28 : M ≤ 28 := by rw [hM]; split <;> omega
  rw [hcalc]
  split
  · rename_i hlt
    exact ⟨le_of_lt hlt, hm28⟩
  · rename_i hge
    exact ⟨not_lt.mp hge, hM28⟩

/-- C3 (amended): every feature produced by `getLayerFeatures` satisfies
`minZ ≤ maxZ ≤ 28`.  The claimed lower bound `0 ≤ minZ` does not hold: no
clamping is applied, and a large SCAMIN (e.g. `2^30`) yields a negative
`minZ` (see the counterexample). -/
theorem feature_zoom_bounds :
    ∀ (ds : S57Dataset) (layerName : String), ∀ feat ∈ getLayerFeatures ds layerName,
      feat.minZ ≤ feat.maxZ ∧ feat.maxZ ≤ 28 := by
  intro ds layerName feat hmem
  rw [getLayerFeatures] at hmem
  split at hmem
  · simp at hmem
  · split at hmem
    · simp at hmem
    · split at hmem
      · simp at hmem
      · rcases List.mem_map.mp hmem with ⟨rec, _, hrec⟩
        subst hrec
        rw [buildFeature_minZ, buildFeature_maxZ, getScaleRange]
        exact calculateZRange_bounds _ _

theorem feature_zoom_bounds_witness :
    (buildFeature "FOO" bigScaleRec ∈ getLayerFeatures bigScaleDs "FOO")
    ∧ (buildFeature "FOO" bigScaleRec).minZ ≤ (buildFeature "FOO" bigScaleRec).maxZ
    ∧ (buildFeature "FOO" bigScaleRec).maxZ ≤ 28 :=
  ⟨bigScale_mem, feature_zoom_bounds bigScaleDs "FOO" _ bigScale_mem⟩

/-! ## Reference-list array literals (`src/database.cpp`) -/

/-- The quote-escaping loop of `Database::lnamRefsToArrayLiteral`: every
embedded single-quote character is doubled. -/
def escapeQuotesL : List Char → List Char
  | [] => []
  | c :: rest =>
    if c = '\'' then '\'' :: '\'' :: escapeQuotesL rest
    else c :: escapeQuotesL rest

/-- One quoted element of the array literal. -/
def quotedElem (r : String) : String :=
  "'" ++ String.mk (escapeQuotesL r.data) ++ "'"

/-- The first-flag comma loop of `Database::lnamRefsToArrayLiteral`. -/
def lnamBody : List String → String
  | [] => ""
  | [r] => quotedElem r
  | r :: r2 :: rest => quotedElem r ++ "," ++ lnamBody (r2 :: rest)

/-- `Database::lnamRefsToArrayLiteral`: SQL `NULL` for an empty reference
list, otherwise a quoted `ARRAY[...]::varchar[]` literal. -/
def lnamRefsToArrayLiteral (refs : List String) : String :=
  if refs = [] then "NULL"
  else "ARRAY[" ++ lnamBody refs ++ "]::varchar[]"

/-- Modelled from the spec: the database engine that reads the stored
reference-list column back is an external collaborator (spec §1, §6).  This
parser inverts the SQL array-literal expression the code emits, collapsing
doubled quotes inside a quoted element. -/
def parseArrayBody : List Char → List Char → List String → Option (List String)
  | [], _, _ => none
  | c :: rest, cur, acc =>
    if c = '\'' then
      match rest with
      | [] => none
      | c2 :: rest2 =>
        if c2 = '\'' then parseArrayBody rest2 (cur ++ ['\'']) acc
        else if c2 = ',' then
          match rest2 with
          | [] => none
          | c3 :: rest3 =>
            if c3 = '\'' then parseArrayBody rest3 [] (acc ++ [String.mk cur])
            else none
        else if c2 = ']' then
          if rest2 = "::varchar[]".data then some (acc ++ [String.mk cur]) else none
        else none
    else parseArrayBody rest (cur ++ [c]) acc

/-- Modelled from the spec: read-back of the whole literal; `NULL` reads
back as the SQL null value (`none`), not as an empty array. -/
def decodeArrayLiteral (s : String) : Option (List String) :=
  if s = "NULL" then none
  else
    match s.data with
    | 'A' :: 'R' :: 'R' :: 'A' :: 'Y' :: '[' :: '\'' :: rest => parseArrayBody rest [] []
    | _ => none

theorem parse_escape (r : List Char) (suffix cur : List Char) (acc : List String) :
    parseArrayBody (escapeQuotesL r ++ suffix) cur acc = parseArrayBody suffix (cur ++ r) acc := by
  induction r generalizing cur with
  | nil => simp [escapeQuotesL]
  | cons c cs ih =>
    by_cases hc : c = '\''
    · subst hc
      rw [escapeQuotesL, if_pos rfl, List.cons_append, List.cons_append, parseArrayBody.eq_def]
      simp only [reduceIte]
      rw [ih]
      simp
    · rw [escapeQuotesL, if_neg hc, List.cons_append, parseArrayBody.eq_def]
      simp only [hc, if_false, reduceIte]
      rw [ih]
      simp

/-- The character tail of the encoded literal after `ARRAY['`. -/
def bodyTail : List String → List Char
  | [] => []
  | [r] => escapeQuotesL r.data ++ ['\'']
  | r :: r2 :: rest => escapeQuotesL r.data ++ '\'' :: ',' :: '\'' :: bodyTail (r2 :: rest)

theorem stringMk_data (s : String) : String.mk s.data = s := rfl

theorem lnamBody_data : ∀ (r : String) (rest : List String),
    (lnamBody (r :: rest)).data = '\'' :: bodyTail (r :: rest) := by
  intro r rest
  induction rest generalizing r with
  | nil =>
    rw [lnamBody, bodyTail, quotedElem]
    rw [String.data_append, String.data_append]
    rfl
  | cons r2 rest2 ih =>
    rw [lnamBody.eq_3, bodyTail.eq_3, quotedElem]
    rw [String.data_append, String.data_append, String.data_append, String.data_append, ih]
    simp

theorem parse_main : ∀ (rest : List String) (r : String) (cur : List Char) (acc : List String),
    parseArrayBody (bodyTail (r :: rest) ++ ']' :: "::varchar[]".data) cur acc
      = some (acc ++ (String.mk (cur ++ r.data) :: rest)) := by
  intro rest
  induction rest with
  | nil =>
    intro r cur acc
    rw [bodyTail.eq_2, List.append_assoc, parse_escape]
    rw [parseArrayBody.eq_def]
    simp
  | cons r2 rest2 ih =>
    intro r cur acc
    rw [bodyTail.eq_3, List.append_assoc, parse_escape]
    rw [List.cons_append, List.cons_append, List.cons_append, parseArrayBody.eq_def]
    simp only [reduceIte]
    rw [ih]
    simp

theorem decode_shape (tail : List Char) (s : String)
    (hd : s.data = 'A' :: 'R' :: 'R' :: 'A' :: 'Y' :: '[' :: '\'' :: tail) :
    decodeArrayLiteral s = parseArrayBody tail [] [] := by
  have hne : s ≠ "NULL" := by
    intro h
    rw [h] at hd
    rw [show "NULL".data = ['N', 'U', 'L', 'L'] from rfl] at hd
    simp at hd
  rw [decodeArrayLiteral, if_neg hne, hd]
  rfl

theorem decode_encode (refs : List String) (hne : refs ≠ []) :
    decodeArrayLiteral (lnamRefsToArrayLiteral refs) = some refs := by
  obtain ⟨r, rest, rfl⟩ := List.exists_cons_of_ne_nil hne
  have hdata : (lnamRefsToArrayLiteral (r :: rest)).data
      = 'A' :: 'R' :: 'R' :: 'A' :: 'Y' :: '[' :: '\''
          :: (bodyTail (r :: rest) ++ ']' :: "::varchar[]".data) := by
    rw [lnamRefsToArrayLiteral, if_neg hne]
    rw [String.data_append, String.data_append, lnamBody_data]
    rfl
  rw [decode_shape _ _ hdata, parse_main]
  simp [stringMk_data]

/-- C5: `lnamRefsToArrayLiteral` encodes the empty reference list to the
null value (the string `NULL`, which reads back as SQL null, not as an
empty array) and a non-empty list to a quoted array-literal expression in
which every embedded single quote is doubled, so that a list such as
`["A'B", "C"]` — and in fact every non-empty list — round-trips to the
original elements on read-back. -/
theorem lnamRefs_literal_spec :
    (lnamRefsToArrayLiteral [] = "NULL" ∧ decodeArrayLiteral "NULL" = none)
    ∧ lnamRefsToArrayLiteral ["A'B", "C"] = "ARRAY['A''B','C']::varchar[]"
    ∧ (∀ refs : List String, refs ≠ [] →
        decodeArrayLiteral (lnamRefsToArrayLiteral refs) = some refs) :=
  ⟨⟨rfl, rfl⟩, by decide, decode_encode⟩

theorem lnamRefs_literal_spec_witness :
    ((["A'B", "C"] : List String) ≠ [])
    ∧ decodeArrayLiteral (lnamRefsToArrayLiteral ["A'B", "C"]) = some ["A'B", "C"] :=
  ⟨by decide, lnamRefs_literal_spec.2.2 ["A'B", "C"] (by decide)⟩

/-! ## Record store (`src/database.cpp`)

The PostGIS store is embedded as an explicit state: a connection flag, the
two serial-id counters and the rows of the `charts` and `features` tables.
Server-side acceptance of geometry payloads (`ST_GeomFromGeoJSON`) is an
oracle parameter `acceptGeom`, modelled from the spec: the database engine
is an external collaborator (spec §1, §6) and a malformed payload makes the
statement throw (spec §7), which the code turns into a rolled-back failed
call. -/

/-- The `ChartInfo` record of `src/types.hpp`. -/
structure ChartInfo where
  name : String := ""
  scale : ℤ := 0
  fileName : String := ""
  updated : String := ""
  issued : String := ""
  zoom : ℤ := 0
  covrGeoJson : String := ""
  dsidProps : String := ""
  chartTxt : String := ""
deriving DecidableEq

/-- One row of the `charts` table. -/
structure ChartRow where
  id : ℤ
  name : String
  scale : ℤ
  fileName : String
  updated : String
  issued : String
  zoom : ℤ
  covr : String
  dsidProps : String
  chartTxt : String
deriving DecidableEq

/-- One row of the `features` table; `lnamRefs` is the nullable `VARCHAR[]`
column, stored as the server-side parse of the emitted array literal. -/
structure FeatureRow where
  id : ℤ
  layer : String
  geom : String
  props : String
  chartId : ℤ
  lnamRefs : Option (List String)
  zmin : ℤ
  zmax : ℤ
deriving DecidableEq

/-- The store state. -/
structure DBState where
  connected : Bool
  nextChartId : ℤ
  nextFeatureId : ℤ
  charts : List ChartRow
  features : List FeatureRow
deriving DecidableEq

/-- SQL statements executed inside `Database::insertFeatures` (trace
observations; `beginTxn`/`commitTxn` delimit the `pqxx::work`). -/
inductive SqlStmt where
  | beginTxn
  | insertRow (f : Feature)
  | commitTxn
deriving DecidableEq

/-- `Database::chartExists`: `SELECT COUNT(*) ... WHERE name = $1 > 0`;
false when disconnected or on error. -/
def chartExists (db : DBState) (name : String) : Bool :=
  db.connected && db.charts.any (fun c => c.name == name)

/-- `Database::deleteChart`: look up the chart id by name; absent name is a
successful no-op; otherwise delete the features referencing the chart, then
the chart row, in one transaction. -/
def deleteChart (db : DBState) (name : String) : Bool × DBState :=
  if ¬db.connected then (false, db)
  else
    match db.charts.find? (fun c => c.name == name) with
    | none => (true, db)
    | some c =>
      (true,
       { db with
         features := db.features.filter (fun f => f.chartId != c.id),
         charts := db.charts.filter (fun ch => ch.id != c.id) })

/-- `Database::insertChart`: one transaction inserting the chart row and
returning the assigned serial id; a duplicate name (UNIQUE violation) or a
coverage payload the server rejects throws, which yields no id and no state
change. -/
def insertChart (acceptGeom : String → Bool) (db : DBState) (chart : ChartInfo) :
    Option ℤ × DBState :=
  if ¬db.connected then (none, db)
  else if db.charts.any (fun c => c.name == chart.name) || !acceptGeom chart.covrGeoJson then
    (none, db)
  else
    (some db.nextChartId,
     { db with
       nextChartId := db.nextChartId + 1,
       charts := db.charts ++
         [⟨db.nextChartId, chart.name, chart.scale, chart.fileName, chart.updated,
           chart.issued, chart.zoom, chart.covrGeoJson, chart.dsidProps, chart.chartTxt⟩] })

/-- Whether one `INSERT INTO features` statement succeeds: the chart
foreign key must exist and the server must accept the geometry payload. -/
def rowOk (acceptGeom : String → Bool) (db : DBState) (chartId : ℤ) (f : Feature) : Bool :=
  db.charts.any (fun c => c.id == chartId) && acceptGeom f.geomGeoJson

/-- The rows a committed batch appends, with serial ids threaded from
`nid`; the reference-list column stores the server-side parse of the
emitted literal. -/
def featureRows (chartId : ℤ) : ℤ → List Feature → List FeatureRow
  | _, [] => []
  | nid, f :: rest =>
    ⟨nid, f.layer, f.geomGeoJson, f.propsJson, chartId,
     decodeArrayLiteral (lnamRefsToArrayLiteral f.lnamRefs), f.minZ, f.maxZ⟩
      :: featureRows chartId (nid + 1) rest

/-- `Database::insertFeatures`: early-out on a dead connection and on an
empty batch (before the `pqxx::work` is constructed, so nothing executes);
otherwise one transaction inserting every row, rolled back as a whole when
any statement throws.  The third component lists the statements executed. -/
def insertFeatures (acceptGeom : String → Bool) (db : DBState) (chartId : ℤ)
    (features : List Feature) : Bool × DBState × List SqlStmt :=
  if ¬db.connected then (false, db, [])
  else if features = [] then (true, db, [])
  else if features.all (rowOk acceptGeom db chartId) then
    (true,
     { db with
       features := db.features ++ featureRows chartId db.nextFeatureId features,
       nextFeatureId := db.nextFeatureId + features.length },
     SqlStmt.beginTxn :: features.map SqlStmt.insertRow ++ [SqlStmt.commitTxn])
  else
    (false, db,
     SqlStmt.beginTxn ::
       (features.takeWhile (rowOk acceptGeom db chartId)
         ++ (features.dropWhile (rowOk acceptGeom db chartId)).take 1).map SqlStmt.insertRow)

/-- A connected store with no rows yet. -/
def emptyDb : DBState := ⟨true, 1, 1, [], []⟩

/-- C8: with a live connection `deleteChart` always reports success; for a
chart name not in the store it leaves the store unchanged (chart and
feature counts identical); for an existing name it deletes every feature
referencing the chart and then the chart row. -/
theorem deleteChart_spec :
    ∀ (db : DBState) (name : String), db.connected = true →
      (deleteChart db name).1 = true
      ∧ ((∀ c ∈ db.charts, c.name ≠ name) →
          (deleteChart db name).2 = db
          ∧ (deleteChart db name).2.charts.length = db.charts.length
          ∧ (deleteChart db name).2.features.length = db.features.length)
      ∧ (∀ c, db.charts.find? (fun ch => ch.name == name) = some c →
          (deleteChart db name).2.features = db.features.filter (fun f => f.chartId != c.id)
          ∧ (deleteChart db name).2.charts = db.charts.filter (fun ch => ch.id != c.id)) := by
  intro db name hconn
  rw [deleteChart, if_neg (by simp [hconn])]
  rcases hfind : db.charts.find? (fun c => c.name == name) with _ | c
  · rw [hfind]
    refine ⟨rfl, fun _ => ⟨rfl, rfl, rfl⟩, ?_⟩
    intro c hc
    exact Option.noConfusion hc
  · rw [hfind]
    refine ⟨rfl, ?_, ?_⟩
    · intro hnone
      have hp := List.find?_some hfind
      have hmem : c ∈ db.charts := List.mem_of_find?_eq_some hfind
      have hcn : c.name = name := by simpa using hp
      exact absurd hcn (hnone c hmem)
    · intro c2 hc2
      injection hc2 with hc2
      subst hc2
      exact ⟨rfl, rfl⟩

theorem deleteChart_spec_witness :
    (emptyDb.connected = true)
    ∧ (deleteChart emptyDb "MISSING").1 = true
    ∧ (deleteChart emptyDb "MISSING").2 = emptyDb := by
  have h := deleteChart_spec emptyDb "MISSING" rfl
  exact ⟨rfl, h.1, (h.2.1 (by simp [emptyDb])).1⟩

/-- C9: on a connected store, inserting an empty feature batch returns
`true` with the store unchanged and an empty statement trace: no
transaction is opened and no row is inserted. -/
theorem insertFeatures_empty_spec :
    ∀ (acceptGeom : String → Bool) (db : DBState) (chartId : ℤ),
      db.connected = true →
      insertFeatures acceptGeom db chartId [] = (true, db, []) := by
  intro acceptGeom db chartId hconn
  rw [insertFeatures, if_neg (by simp [hconn]), if_pos rfl]

theorem insertFeatures_empty_spec_witness :
    (emptyDb.connected = true)
    ∧ insertFeatures (fun _ => true) emptyDb 1 [] = (true, emptyDb, []) :=
  ⟨rfl, insertFeatures_empty_spec (fun _ => true) emptyDb 1 rfl⟩

/-! ## Chart metadata (`src/s57.cpp`) and ingestion (`src/ingest.cpp`) -/

/-- `GetLayerByName` followed by `ResetReading`/`GetNextFeature`: the first
record of the named layer, `none` when the layer is absent or empty. -/
def getFirstRecord (ds : S57Dataset) (layerName : String) : Option OGRFeatureRec :=
  match ds.layers.find? (fun l => l.1 == layerName) with
  | none => none
  | some l => l.2.head?

/-- `S57::getDsidProperties`: attributes of the first DSID record. -/
def getDsidProperties (ds : S57Dataset) : List (String × String) :=
  if ¬ds.isOpen then []
  else
    match getFirstRecord ds "DSID" with
    | none => []
    | some rec => extractProperties rec.fields

/-- `S57::getMCovrProperties`: attributes of the first M_COVR record. -/
def getMCovrProperties (ds : S57Dataset) : List (String × String) :=
  if ¬ds.isOpen then []
  else
    match getFirstRecord ds "M_COVR" with
    | none => []
    | some rec => extractProperties rec.fields

/-- `S57::getCoverageGeoJson`: geometry of the first M_COVR record, the
empty JSON object if closed/absent/empty. -/
def getCoverageGeoJson (ds : S57Dataset) : String :=
  if ¬ds.isOpen then "\x7b\x7d"
  else
    match getFirstRecord ds "M_COVR" with
    | none => "\x7b\x7d"
    | some rec => geometryToGeoJson rec.geom

/-- `std::filesystem::path(p).filename()` on POSIX paths: the component
after the last slash. -/
def pathFilename (p : String) : String :=
  String.mk ((p.data.reverse.takeWhile (fun c => c ≠ '/')).reverse)

/-- `std::filesystem::path(p).stem()`: the filename with its last extension
removed (a leading dot alone does not start an extension). -/
def pathStem (p : String) : String :=
  let f := (pathFilename p).data
  match f.reverse.dropWhile (fun c => c ≠ '.') with
  | '.' :: rest => if rest = [] then String.mk f else String.mk rest.reverse
  | _ => String.mk f

/-- `S57::getChartInfo`. -/
def getChartInfo (ds : S57Dataset) (filePath : String) : ChartInfo :=
  if ¬ds.isOpen then {}
  else
    let dsidProps := getDsidProperties ds
    let name :=
      match mapFind "DSNM" dsidProps with
      | some v => v
      | none => pathStem filePath
    let scale : ℤ :=
      match mapFind "DSPM_CSCL" dsidProps with
      | some v => (stoi? v).getD 0
      | none => 0
    { name := name
      scale := scale
      fileName := pathFilename filePath
      updated := (mapFind "UADT" dsidProps).getD ""
      issued := (mapFind "ISDT" dsidProps).getD ""
      zoom := if 0 < scale then findZoom scale else 0
      covrGeoJson := getCoverageGeoJson ds
      dsidProps := toJsonObject dsidProps
      chartTxt := toJsonObject (getMCovrProperties ds) }

/-- The `ProcessingResult` record of `src/types.hpp`. -/
structure ProcessingResult where
  success : Bool := false
  fileName : String := ""
  chartName : String := ""
  featureCount : ℤ := 0
  errorMessage : String := ""
deriving DecidableEq

/-- The fixed batch size of `ChartIngest::processFile`. -/
def batchSize : ℕ := 1000

/-- The batches the `for (i = 0; i < n; i += batchSize)` loop forms: batch
`i` is the subvector `[bs*i, min (bs*(i+1)) n)`, and there are
`⌈n / bs⌉ = (n + bs - 1) / bs` of them. -/
def batchesOf (bs : ℕ) (l : List Feature) : List (List Feature) :=
  (List.range ((l.length + (bs - 1)) / bs)).map (fun i => (l.drop (bs * i)).take bs)

/-- The batch-insertion loop of `ChartIngest::processFile`: insert batches
in order, stopping at the first failed `Database::insertFeatures` call. -/
def insertBatches (acceptGeom : String → Bool) (chartId : ℤ) :
    DBState → List (List Feature) → Bool × DBState
  | db, [] => (true, db)
  | db, b :: rest =>
    match insertFeatures acceptGeom db chartId b with
    | (true, db2, _) => insertBatches acceptGeom chartId db2 rest
    | (false, db2, _) => (false, db2)

/-- Whether one `Database::insertFeatures` call commits, as a predicate of
the batch (connection live; empty batches succeed; otherwise every row must
be insertable). -/
def batchOk (acceptGeom : String → Bool) (db : DBState) (chartId : ℤ)
    (b : List Feature) : Bool :=
  db.connected && (b.isEmpty || b.all (rowOk acceptGeom db chartId))

/-- `ChartIngest::processFile`. -/
def processFile (acceptGeom : String → Bool) (db : DBState) (ds : S57Dataset)
    (filePath : String) : ProcessingResult × DBState :=
  let r0 : ProcessingResult := { fileName := pathFilename filePath }
  if ¬ds.isOpen then
    ({ r0 with success := false, errorMessage := "Failed to open file" }, db)
  else
    let chartInfo := getChartInfo ds filePath
    let r1 := { r0 with chartName := chartInfo.name }
    let db1 := if chartExists db chartInfo.name then (deleteChart db chartInfo.name).2 else db
    match insertChart acceptGeom db1 chartInfo with
    | (none, db2) =>
      ({ r1 with success := false, errorMessage := "Failed to insert chart" }, db2)
    | (some chartId, db2) =>
      let features := getAllFeatures ds
      let r2 := { r1 with featureCount := (features.length : ℤ) }
      match insertBatches acceptGeom chartId db2 (batchesOf batchSize features) with
      | (true, db3) => ({ r2 with success := true }, db3)
      | (false, db3) =>
        ({ r2 with success := false, errorMessage := "Failed to insert features" }, db3)

/-! ## Batching lemmas -/

theorem batchesOf_nil (bs : ℕ) : batchesOf bs ([] : List Feature) = [] := by
  rw [batchesOf]
  rcases Nat.eq_zero_or_pos bs with h | h
  · subst h
    simp
  · rw [List.length_nil, Nat.zero_add, Nat.div_eq_of_lt (by omega)]
    simp

theorem batchesOf_cons_struct (bs : ℕ) (hbs : 0 < bs) (l : List Feature) (hl : l ≠ []) :
    batchesOf bs l = l.take bs :: batchesOf bs (l.drop bs) := by
  rw [batchesOf, batchesOf]
  have hlen : 0 < l.length := List.length_pos.mpr hl
  have hcount : (l.length + (bs - 1)) / bs = ((l.drop bs).length + (bs - 1)) / bs + 1 := by
    rw [List.length_drop]
    rcases le_or_lt bs l.length with h | h
    · have he : l.length - bs + (bs - 1) + bs = l.length + (bs - 1) := by omega
      rw [← he, Nat.add_div_right _ hbs]
    · have h1 : l.length - bs = 0 := by omega
      have hr : (bs - 1) / bs = 0 := Nat.div_eq_of_lt (by omega)
      have hl2 : (l.length + (bs - 1)) / bs = 1 := Nat.div_eq_of_lt_le (by omega) (by omega)
      rw [h1, Nat.zero_add, hr, hl2]
  rw [hcount, List.range_succ_eq_map, List.map_cons]
  congr 1
  rw [List.map_map]
  apply List.map_congr_left
  intro i _
  show (l.drop (bs * (i + 1))).take bs = ((l.drop bs).drop (bs * i)).take bs
  rw [List.drop_drop]
  congr 2
  ring

theorem batchesOf_flatten_aux (bs : ℕ) (hbs : 0 < bs) :
    ∀ (n : ℕ) (l : List Feature), l.length ≤ n → (batchesOf bs l).flatten = l := by
  intro n
  induction n with
  | zero =>
    intro l hl
    have : l = [] := List.eq_nil_of_length_eq_zero (by omega)
    subst this
    rw [batchesOf_nil]
    rfl
  | succ n ih =>
    intro l hl
    by_cases hnil : l = []
    · subst hnil
      rw [batchesOf_nil]
      rfl
    · rw [batchesOf_cons_struct bs hbs l hnil, List.flatten_cons,
        ih (l.drop bs) (by rw [List.length_drop]; have := List.length_pos.mpr hnil; omega),
        List.take_append_drop]

theorem batchesOf_flatten (bs : ℕ) (hbs : 0 < bs) (l : List Feature) :
    (batchesOf bs l).flatten = l :=
  batchesOf_flatten_aux bs hbs l.length l le_rfl

theorem batchesOf_mem_length (bs : ℕ) (l : List Feature) :
    ∀ b ∈ batchesOf bs l, b.length ≤ bs := by
  intro b hb
  rw [batchesOf] at hb
  rcases List.mem_map.mp hb with ⟨i, _, rfl⟩
  simp

theorem featureRows_append (cid : ℤ) :
    ∀ (xs ys : List Feature) (n : ℤ),
      featureRows cid n (xs ++ ys)
        = featureRows cid n xs ++ featureRows cid (n + xs.length) ys := by
  intro xs
  induction xs with
  | nil =>
    intro ys n
    simp [featureRows]
  | cons x xs ih =>
    intro ys n
    rw [List.cons_append, featureRows, featureRows, ih, List.cons_append]
    have hn : n + 1 + (xs.length : ℤ) = n + ((x :: xs).length : ℤ) := by
      rw [List.length_cons]
      push_cast
      ring
    rw [hn]

theorem featureRows_length (cid : ℤ) :
    ∀ (l : List Feature) (n : ℤ), (featureRows cid n l).length = l.length := by
  intro l
  induction l with
  | nil => intro n; rfl
  | cons x xs ih => intro n; rw [featureRows, List.length_cons, List.length_cons, ih]

theorem insertFeatures_parts (a : String → Bool) (db : DBState) (cid : ℤ) (b : List Feature) :
    (insertFeatures a db cid b).1 = batchOk a db cid b
    ∧ (insertFeatures a db cid b).2.1.connected = db.connected
    ∧ (insertFeatures a db cid b).2.1.charts = db.charts
    ∧ (insertFeatures a db cid b).2.1.features
        = db.features ++ (if batchOk a db cid b then featureRows cid db.nextFeatureId b else [])
    ∧ (insertFeatures a db cid b).2.1.nextFeatureId
        = db.nextFeatureId + (if batchOk a db cid b then (b.length : ℤ) else 0) := by
  rw [insertFeatures, batchOk]
  by_cases hc : db.connected = true
  · rw [if_neg (by simp [hc])]
    by_cases hb : b = []
    · subst hb
      rw [if_pos rfl]
      simp [hc, featureRows]
    · rw [if_neg hb]
      have hbe : b.isEmpty = false := by
        cases b
        · exact absurd rfl hb
        · rfl
      by_cases hall : b.all (rowOk a db cid) = true
      · rw [if_pos hall]
        simp [hc, hbe, hall]
      · rw [if_neg hall]
        simp [hc, hbe, Bool.eq_false_iff.mpr hall]
  · rw [if_pos (by simp [hc])]
    have hcf : db.connected = false := Bool.eq_false_iff.mpr hc
    simp [hcf]

theorem rowOk_congr (a : String → Bool) (cid : ℤ) (db db2 : DBState)
    (hch : db2.charts = db.charts) : rowOk a db2 cid = rowOk a db cid := by
  funext f
  rw [rowOk, rowOk, hch]

theorem batchOk_congr (a : String → Bool) (cid : ℤ) (db db2 : DBState)
    (hc : db2.connected = db.connected) (hch : db2.charts = db.charts) :
    batchOk a db2 cid = batchOk a db cid := by
  funext b
  rw [batchOk, batchOk, hc, rowOk_congr a cid db db2 hch]

theorem insertBatches_parts (a : String → Bool) (cid : ℤ) :
    ∀ (bs : List (List Feature)) (db : DBState),
      (insertBatches a cid db bs).1 = bs.all (batchOk a db cid)
      ∧ (insertBatches a cid db bs).2.connected = db.connected
      ∧ (insertBatches a cid db bs).2.charts = db.charts
      ∧ (insertBatches a cid db bs).2.features
          = db.features
            ++ featureRows cid db.nextFeatureId (bs.takeWhile (batchOk a db cid)).flatten
      ∧ (insertBatches a cid db bs).2.nextFeatureId
          = db.nextFeatureId + (((bs.takeWhile (batchOk a db cid)).flatten.length : ℕ) : ℤ) := by
  intro bs
  induction bs with
  | nil =>
    intro db
    simp [insertBatches, featureRows]
  | cons b rest ih =>
    intro db
    obtain ⟨h1, h2, h3, h4, h5⟩ := insertFeatures_parts a db cid b
    rw [insertBatches]
    rcases hfe : insertFeatures a db cid b with ⟨succ, db2, tr⟩
    rw [hfe] at h1 h2 h3 h4 h5
    simp only at h1 h2 h3 h4 h5
    cases succ with
    | true =>
      have hok : batchOk a db cid b = true := h1.symm
      obtain ⟨g1, g2, g3, g4, g5⟩ := ih db2
      have hcongr : batchOk a db2 cid = batchOk a db cid := batchOk_congr a cid db db2 h2 h3
      rw [if_pos hok] at h4 h5
      rw [List.all_cons, List.takeWhile_cons_of_pos hok, List.flatten_cons]
      refine ⟨?_, ?_, ?_, ?_, ?_⟩
      · rw [g1, hcongr, hok, Bool.true_and]
      · rw [g2, h2]
      · rw [g3, h3]
      · rw [g4, hcongr, h4, h5, featureRows_append, List.append_assoc]
      · rw [g5, hcongr, h5, List.length_append]
        push_cast
        ring
    | false =>
      have hok : batchOk a db cid b = false := h1.symm
      rw [List.all_cons, List.takeWhile_cons_of_neg (by rw [hok]; exact Bool.false_ne_true)]
      rw [if_neg (by rw [hok]; exact Bool.false_ne_true)] at h4 h5
      refine ⟨?_, ?_, ?_, ?_, ?_⟩
      · rw [hok, Bool.false_and]
      · exact h2
      · exact h3
      · rw [h4, List.append_nil]
        simp [featureRows]
      · rw [h5]
        simp

/-- C4: a file's feature list of `n` records is split into `⌈n/1000⌉`
sequential batches of at most 1000 records each that concatenate back to
the input (`batchesOf batchSize` with `batchSize = 1000`, over which
`processFile` runs `insertBatches`); the run succeeds exactly when every
batch commits — the first failing batch aborts it with a failure result —
the batches committed before the first failure are exactly what persists,
and on success the rows inserted number `n`. -/
theorem processFile_batching_spec :
    ∀ (acceptGeom : String → Bool) (db : DBState) (chartId : ℤ) (l : List Feature),
      (batchesOf 1000 l).length = (l.length + 999) / 1000
      ∧ (∀ b ∈ batchesOf 1000 l, b.length ≤ 1000)
      ∧ (batchesOf 1000 l).flatten = l
      ∧ ((insertBatches acceptGeom chartId db (batchesOf 1000 l)).1 = true
          ↔ (batchesOf 1000 l).all (batchOk acceptGeom db chartId) = true)
      ∧ (insertBatches acceptGeom chartId db (batchesOf 1000 l)).2.features
          = db.features
            ++ featureRows chartId db.nextFeatureId
                ((batchesOf 1000 l).takeWhile (batchOk acceptGeom db chartId)).flatten
      ∧ ((insertBatches acceptGeom chartId db (batchesOf 1000 l)).1 = true →
          (insertBatches acceptGeom chartId db (batchesOf 1000 l)).2.features.length
            = db.features.length + l.length) := by
  intro a db cid l
  obtain ⟨p1, _, _, p4, _⟩ := insertBatches_parts a cid (batchesOf 1000 l) db
  refine ⟨?_, batchesOf_mem_length 1000 l, batchesOf_flatten 1000 (by norm_num) l, ?_, p4, ?_⟩
  · rw [batchesOf]
    simp
  · rw [p1]
  · intro hsucc
    have hall : (batchesOf 1000 l).all (batchOk a db cid) = true := by
      rw [← p1]
      exact hsucc
    have htw : (batchesOf 1000 l).takeWhile (batchOk a db cid) = batchesOf 1000 l := by
      rw [List.takeWhile_eq_self_iff]
      exact fun x hx => List.all_eq_true.mp hall x hx
    rw [p4, htw, batchesOf_flatten 1000 (by norm_num) l, List.length_append,
      featureRows_length]

/-- A sample feature for concrete batching runs. -/
def sampleFeature : Feature := ⟨"L", "", "\x7b\x7d", 0, 28, []⟩

theorem processFile_batching_spec_witness :
    ((batchesOf 1000 (List.replicate 1001 sampleFeature)).length = (1001 + 999) / 1000)
    ∧ (List.replicate 1000 sampleFeature ∈ batchesOf 1000 (List.replicate 1001 sampleFeature))
    ∧ (List.replicate 1000 sampleFeature).length ≤ 1000
    ∧ (batchesOf 1000 (List.replicate 1001 sampleFeature)).flatten
        = List.replicate 1001 sampleFeature := by
  have h := processFile_batching_spec (fun _ => true) emptyDb 1 (List.replicate 1001 sampleFeature)
  have hmem : List.replicate 1000 sampleFeature
      ∈ batchesOf 1000 (List.replicate 1001 sampleFeature) := by
    rw [batchesOf_cons_struct 1000 (by norm_num) _
        (List.ne_nil_of_length_pos (by rw [List.length_replicate]; norm_num)),
      List.take_replicate]
    have hmin : min 1000 1001 = 1000 := by norm_num
    rw [hmin]
    exact List.mem_cons_self _ _
  refine ⟨?_, hmem, h.2.1 _ hmem, h.2.2.1⟩
  rw [h.1, List.length_replicate]

/-- C10: `processFile` stores the extracted-feature count in the result
before the batch loop runs, so a result that fails with
"Failed to insert features" still reports `featureCount` equal to the total
number of features extracted from the file, not the number of rows
persisted. -/
theorem processFile_featureCount_spec :
    ∀ (acceptGeom : String → Bool) (db : DBState) (ds : S57Dataset) (filePath : String),
      (processFile acceptGeom db ds filePath).1.success = false →
      (processFile acceptGeom db ds filePath).1.errorMessage = "Failed to insert features" →
      (processFile acceptGeom db ds filePath).1.featureCount
        = ((getAllFeatures ds).length : ℤ) := by
  intro a db ds fp
  rw [processFile]
  by_cases hopen : ds.isOpen = true
  · rw [if_neg (by simp [hopen])]
    dsimp only
    split
    · intro _ herr
      simp at herr
    · split
      · intro hsucc _
        simp at hsucc
      · intro _ _
        rfl
  · rw [if_pos (by simp [hopen])]
    intro _ herr
    simp at herr

/-- A geometry-acceptance oracle that accepts exactly the empty-object
payload: the chart's coverage parses server-side, the features' empty
geometry payloads do not, so the first feature batch fails. -/
def acceptEmptyGeom : String → Bool := fun s => s == "\x7b\x7d"

/-- An open dataset with one ordinary layer holding one record without
geometry. -/
def oneFeatDs : S57Dataset := ⟨true, [("FOO", [⟨[], none⟩])]⟩

theorem processFile_featureCount_spec_witness :
    ((processFile acceptEmptyGeom emptyDb oneFeatDs "CHART.000").1.success = false)
    ∧ ((processFile acceptEmptyGeom emptyDb oneFeatDs "CHART.000").1.errorMessage
        = "Failed to insert features")
    ∧ ((processFile acceptEmptyGeom emptyDb oneFeatDs "CHART.000").1.featureCount
        = ((getAllFeatures oneFeatDs).length : ℤ)) :=
  ⟨by decide, by decide,
   processFile_featureCount_spec acceptEmptyGeom emptyDb oneFeatDs "CHART.000"
     (by decide) (by decide)⟩
